import Mathlib

/-!
Verification development for the STA Tactical Campaign module.

The development shallowly embeds the module's two algorithmic subsystems:

* the generation pipelines (`PoiGenerator.generate`, `AssetGenerator.generate`
  from `scripts/poi-generator.mjs` and `scripts/asset-generator.mjs`), which
  chain a category-table roll, a keyword classification of the rolled name,
  a sub-table roll, and an entity dereference, degrading gracefully at each
  stage; and

* the conversion engine (`ActorConverter` from `scripts/actor-converter.mjs`),
  which derives a five-category power profile from a rated source actor and
  chooses a primary category, including the cascading tie-break algorithm of
  `_choosePrimaryByHighest` and the failure-isolating batch loop of
  `convertFolder`.

External collaborators (Foundry tables, documents, dialogs, Math.random) are
modelled as explicit inputs: table/document lookup becomes a function
`String → Option _`, a dialog outcome becomes an `Option` parameter
(`none` = cancelled), and each call to `Math.random` becomes a `Nat`
parameter used as an index modulo the length of the list being drawn from.
JavaScript numbers occurring here are integers, modelled as `Int`;
absent object fields are modelled as `Option` with `none` for
`undefined`/`null`, so `data.value ?? 0` becomes `Option.getD _ 0`.
-/

/-- The five power categories (`POWER_KEYS` order: medical, military,
personal, science, social). -/
inductive PowerKey where
  | medical
  | military
  | personal
  | science
  | social
deriving DecidableEq, Repr, Fintype

/-- The `POWER_KEYS` constant of `actor-converter.mjs`. -/
def POWER_KEYS : List PowerKey :=
  [.medical, .military, .personal, .science, .social]

/-- A single power rating as stored in an asset's `powers` object:
a computed `value` and `focus`. -/
structure PowerRating where
  value : Int
  focus : Int
deriving DecidableEq, Repr

/-- A JS object holding rated sub-fields, e.g. `actor.system.attributes` or
`actor.system.disciplines`: an insertion-ordered association list from field
name to the field's (possibly absent) `.value`. -/
def StatMap : Type := List (String × Option Int)

/-- The JS access pattern `m[key]?.value ?? 0`: absent fields and absent
values both default to `0` before arithmetic. -/
def statVal (m : StatMap) (key : String) : Int :=
  ((List.lookup key m).join).getD 0

/-- One entry of the `CHARACTER_FORMULAS` table: attribute and discipline
field names. -/
structure CharFormula where
  attr : String
  disc : String

/-- One entry of the `SHIP_FORMULAS` table: system and department field
names. -/
structure ShipFormula where
  sys : String
  dept : String

/-- The `CHARACTER_FORMULAS` table of `actor-converter.mjs`. -/
def CHARACTER_FORMULAS : PowerKey → CharFormula
  | .medical => ⟨"insight", "medicine"⟩
  | .military => ⟨"daring", "security"⟩
  | .personal => ⟨"control", "security"⟩
  | .science => ⟨"reason", "science"⟩
  | .social => ⟨"presence", "command"⟩

/-- The `SHIP_FORMULAS` table of `actor-converter.mjs`. -/
def SHIP_FORMULAS : PowerKey → ShipFormula
  | .medical => ⟨"computers", "medicine"⟩
  | .military => ⟨"weapons", "security"⟩
  | .personal => ⟨"engines", "conn"⟩
  | .science => ⟨"sensors", "science"⟩
  | .social => ⟨"communications", "command"⟩

/-- `ActorConverter._calcCharacterPowers`: for each power key,
`value = attrVal + discVal`, `focus = discVal`, with missing fields
defaulted to `0`.  The JS builds an object keyed by all five power keys;
here that object is a total function on `PowerKey`. -/
def _calcCharacterPowers (attrs discs : StatMap) : PowerKey → PowerRating :=
  fun powerKey =>
    let formula := CHARACTER_FORMULAS powerKey
    let attrVal := statVal attrs formula.attr
    let discVal := statVal discs formula.disc
    { value := attrVal + discVal, focus := discVal }

/-- `ActorConverter._calcShipPowers`: for each power key,
`value = sysVal + deptVal`, `focus = deptVal`, with missing fields
defaulted to `0`. -/
def _calcShipPowers (systems depts : StatMap) : PowerKey → PowerRating :=
  fun powerKey =>
    let formula := SHIP_FORMULAS powerKey
    let sysVal := statVal systems formula.sys
    let deptVal := statVal depts formula.dept
    { value := sysVal + deptVal, focus := deptVal }

/-- The bounds declared by `powerField` in the data-model schema
(`data-models.js`): `value` is an integer in `0..20`, `focus` an integer in
`0..5`. -/
def powerFieldValid (p : PowerRating) : Prop :=
  0 ≤ p.value ∧ p.value ≤ 20 ∧ 0 ≤ p.focus ∧ p.focus ≤ 5

instance (p : PowerRating) : Decidable (powerFieldValid p) := by
  unfold powerFieldValid; infer_instance

/-- The `DISC_TO_POWERS` lookup of `actor-converter.mjs`: which power
categories a discipline/department is eligible to make primary.  Unlisted
sub-skills (e.g. `engineering`) map to nothing. -/
def DISC_TO_POWERS : String → Option (List PowerKey)
  | "medicine" => some [.medical]
  | "security" => some [.military, .personal]
  | "conn" => some [.military]
  | "science" => some [.science]
  | "command" => some [.social]
  | _ => none

/-- Insertion into a JS `Set` kept as an insertion-ordered duplicate-free
list. -/
def addUnique (acc : List PowerKey) (p : PowerKey) : List PowerKey :=
  if p ∈ acc then acc else acc ++ [p]

/-- The `candidatePowers` set built inside `_choosePrimaryByHighest`: the
union of `DISC_TO_POWERS` over the disciplines tied at the current value. -/
def candidatePowers (tied : List String) : List PowerKey :=
  tied.foldl
    (fun acc disc =>
      match DISC_TO_POWERS disc with
      | some mapped => mapped.foldl addUnique acc
      | none => acc)
    []

/-- One iteration of the best-candidate loop of `_choosePrimaryByHighest`:
state is `(bestVal, bestPowers)`, starting from `(-1, [])`. -/
def bestStep (powers : PowerKey → PowerRating) (st : Int × List PowerKey)
    (key : PowerKey) : Int × List PowerKey :=
  let v := (powers key).value
  if st.1 < v then (v, [key])
  else if v = st.1 then (st.1, st.2 ++ [key])
  else st

/-- The `bestPowers` list computed by `_choosePrimaryByHighest`: all
candidates attaining the highest computed power value (via the `bestVal`
fold starting at `-1`). -/
def bestPowers (powers : PowerKey → PowerRating)
    (candidates : List PowerKey) : List PowerKey :=
  (candidates.foldl (bestStep powers) (-1, [])).2

/-- The JS draw `l[Math.floor(Math.random() * l.length)]`: the random
number is modelled by the index parameter `r`, reduced modulo the list
length; an empty list yields `none` (JS `undefined`). -/
def randPick {α : Type} (l : List α) (r : Nat) : Option α :=
  l[r % l.length]?

/-- Recursion core of the tier walk of `_choosePrimaryByHighest`.  Each
step consumes the whole run of entries tied at the head's value, so the
recursion is bounded by the list length; `fuel` makes that bound structural
and is initialised to the list length by `walkTiers`, so the `fuel = 0`
branch on a nonempty list is unreachable (every lemma below carries the
bound `l.length ≤ fuel`). -/
def walkTiersGo (powers : PowerKey → PowerRating) (r : Nat) :
    Nat → List (String × Int) → Option (Option PowerKey)
  | _, [] => none
  | 0, _ :: _ => none
  | fuel + 1, (disc, currentVal) :: rest =>
    let tied :=
      disc :: (rest.takeWhile (fun e => e.2 = currentVal)).map Prod.fst
    let candidates := candidatePowers tied
    if candidates.length ≠ 0 then
      some (randPick (bestPowers powers candidates) r)
    else
      walkTiersGo powers r fuel (rest.dropWhile (fun e => e.2 = currentVal))

/-- The tier walk of `_choosePrimaryByHighest`: the sorted entries are
grouped into maximal runs of equal value; the first run whose disciplines
contribute at least one mapped power returns a random element of its
`bestPowers` (`some result`, where `result = none` models JS returning
`undefined`); falling off the end returns `none`. -/
def walkTiers (powers : PowerKey → PowerRating) (r : Nat)
    (l : List (String × Int)) : Option (Option PowerKey) :=
  walkTiersGo powers r l.length l

/-- `Object.entries(scores).map(([key, data]) => ({key, value: data.value ?? 0}))`. -/
def scoreEntries (scores : StatMap) : List (String × Int) :=
  scores.map (fun e => (e.1, e.2.getD 0))

/-- The descending comparison used by
`sort((a, b) => b.value - a.value)`. -/
def descR (a b : String × Int) : Prop := b.2 ≤ a.2

instance : DecidableRel descR := fun a b =>
  inferInstanceAs (Decidable (b.2 ≤ a.2))

instance : IsTotal (String × Int) descR := ⟨fun a b => le_total b.2 a.2⟩

instance : IsTrans (String × Int) descR :=
  ⟨fun _ _ _ hab hbc => le_trans hbc hab⟩

/-- `ActorConverter._choosePrimaryByHighest`: sort the score entries by
value descending, walk tiers of equal value until one contributes a mapped
power, pick the candidate with the highest computed power value (ties
random, index `r`); if no discipline has a mapping, fall back to a random
power key (index `rFallback`). -/
def _choosePrimaryByHighest (scores : StatMap)
    (powers : PowerKey → PowerRating) (r rFallback : Nat) : Option PowerKey :=
  let sorted := (scoreEntries scores).insertionSort descR
  match walkTiers powers r sorted with
  | some result => result
  | none => randPick POWER_KEYS rFallback

/-- Disciplines appearing in `entries` with score exactly `v`. -/
def keysAt (entries : List (String × Int)) (v : Int) : List String :=
  (entries.filter (fun e => e.2 = v)).map Prod.fst

/-- Candidate categories contributed by the tier of score `v`. -/
def tierCands (entries : List (String × Int)) (v : Int) : List PowerKey :=
  candidatePowers (keysAt entries v)

/-- The JS builtin `String.prototype.toUpperCase` (ASCII, as used by the
table result names): uppercase every character. -/
def jsToUpper (s : String) : String := ⟨s.data.map Char.toUpper⟩

/-- The JS builtin `String.prototype.trim`: strip leading and trailing
whitespace. -/
def jsTrim (s : String) : String :=
  ⟨((s.data.dropWhile Char.isWhitespace).reverse.dropWhile
      Char.isWhitespace).reverse⟩

/-- The JS builtin `String.prototype.includes`: substring containment. -/
def strIncludes (s sub : String) : Bool := decide (sub.data <:+: s.data)

/-- The JS falsy-string default `s || d`. -/
def jsOr (s d : String) : String := if s = "" then d else s

/-- One row of a rollable table's draw outcome (`roll.results[0]`), with
absent string fields collapsed to `""` (both are falsy in JS). -/
structure TableResult where
  name : String
  documentUuid : String
  description : String
deriving DecidableEq, Repr

/-- A rollable table as seen by one run: `table.roll()` is one weighted
draw whose outcome is fixed for the run, so the table is modelled by the
roll total and result rows the draw returns. -/
structure RollTable where
  total : Int
  results : List TableResult
deriving DecidableEq, Repr

/-- The value returned by `rollOnTable` on success. -/
structure RollResult where
  roll : Int
  name : String
  documentUuid : String
  description : String
deriving DecidableEq, Repr

/-- `rollOnTable` (identical in `poi-generator.mjs` and
`asset-generator.mjs`): `null` when the UUID setting is blank
(unconfigured) or does not dereference to a table (not found); otherwise
one draw, defaulting a missing first result row to name `"No result"` and
empty reference/description. -/
def rollOnTable (fromUuid : String → Option RollTable) (uuid : String) :
    Option RollResult :=
  if uuid = "" then none
  else
    match fromUuid uuid with
    | none => none
    | some table =>
      let result := table.results.head?
      some
        { roll := table.total
          name := jsOr ((result.map (·.name)).getD "") "No result"
          documentUuid := (result.map (·.documentUuid)).getD ""
          description := (result.map (·.description)).getD "" }

/-- A resolvable world document (the actor a sub-table row links to). -/
structure ActorDoc where
  name : String
deriving DecidableEq, Repr

/-- The external `fromUuid` environment of one generator run, split by the
kind of document being dereferenced. -/
structure GenEnv where
  table : String → Option RollTable
  actor : String → Option ActorDoc

/-- The generators' return object
`{typeResult, subResult, subTableKey, actor}`. -/
structure GenReport where
  typeResult : RollResult
  subResult : Option RollResult
  subTableKey : String
  actor : Option ActorDoc
deriving DecidableEq, Repr

/-- An instrumented run outcome: the returned value (`none` = the JS
function returned `null`), whether control reached the sub-table
`rollOnTable` call, and the category roll embedded in the fallback chat
card posted when classification fails. -/
structure GenOutcome where
  result : Option GenReport
  subTableRolled : Bool
  fallbackCard : Option RollResult
deriving DecidableEq, Repr

/-- The POI generator table settings (UUID strings, `""` = unconfigured). -/
structure PoiSettings where
  pointOfInterestType : String
  tacticalThreat : String
  exploration : String
  routine : String
  unknown : String

/-- The `tables[subTableKey]` access in `PoiGenerator.generate`. -/
def PoiSettings.subTable (s : PoiSettings) : String → String
  | "tacticalThreat" => s.tacticalThreat
  | "exploration" => s.exploration
  | "routine" => s.routine
  | "unknown" => s.unknown
  | _ => ""

/-- `PoiGenerator._matchTypeKey`: ordered keyword containment tests on the
uppercased result name. -/
def PoiGenerator._matchTypeKey (typeName : String) : Option String :=
  if strIncludes typeName "TACTICAL" || strIncludes typeName "THREAT" then
    some "tacticalThreat"
  else if strIncludes typeName "EXPLORATION" then some "exploration"
  else if strIncludes typeName "ROUTINE" then some "routine"
  else if strIncludes typeName "UNKNOWN" then some "unknown"
  else none

/-- `PoiGenerator.generate`: roll the type table (failure aborts with
`null`); classify the result name (no match posts a fallback card from the
type roll alone and returns `null`); roll the matched sub-table (failure
returns a partial report); dereference the sub-result's document UUID
(failure keeps `actor = null` in a still-successful report). -/
def PoiGenerator.generate (s : PoiSettings) (env : GenEnv) : GenOutcome :=
  match rollOnTable env.table s.pointOfInterestType with
  | none => { result := none, subTableRolled := false, fallbackCard := none }
  | some typeResult =>
    let typeName := jsTrim (jsToUpper typeResult.name)
    match PoiGenerator._matchTypeKey typeName with
    | none =>
      { result := none, subTableRolled := false,
        fallbackCard := some typeResult }
    | some subTableKey =>
      match rollOnTable env.table (s.subTable subTableKey) with
      | none =>
        { result := some
            { typeResult := typeResult, subResult := none,
              subTableKey := subTableKey, actor := none }
          subTableRolled := true, fallbackCard := none }
      | some subResult =>
        let actorUuid := jsTrim subResult.documentUuid
        let actor := if actorUuid = "" then none else env.actor actorUuid
        { result := some
            { typeResult := typeResult, subResult := some subResult,
              subTableKey := subTableKey, actor := actor }
          subTableRolled := true, fallbackCard := none }

/-- The asset generator table settings (UUID strings, `""` = unconfigured). -/
structure AssetSettings where
  assetType : String
  character : String
  ship : String
  resource : String

/-- The `tables[subTableKey]` access in `AssetGenerator.generate`. -/
def AssetSettings.subTable (s : AssetSettings) : String → String
  | "character" => s.character
  | "ship" => s.ship
  | "resource" => s.resource
  | _ => ""

/-- `AssetGenerator._resolveTypeKey`: keyword containment on the uppercased
result name; a name mentioning both CHARACTER and SHIP defers to the GM
dialog, whose outcome is the `promptResult` parameter (`none` = the dialog
was closed/declined). -/
def AssetGenerator._resolveTypeKey (typeName : String)
    (promptResult : Option String) : Option String :=
  let hasCharacter := strIncludes typeName "CHARACTER"
  let hasShip := strIncludes typeName "SHIP"
  let hasResource := strIncludes typeName "RESOURCE"
  if hasCharacter && hasShip then promptResult
  else if hasCharacter then some "character"
  else if hasShip then some "ship"
  else if hasResource then some "resource"
  else none

/-- `AssetGenerator.generate`: same pipeline as `PoiGenerator.generate`
with `_resolveTypeKey` as the classifier (hence the extra `promptResult`
input for the conditional-type dialog). -/
def AssetGenerator.generate (s : AssetSettings) (env : GenEnv)
    (promptResult : Option String) : GenOutcome :=
  match rollOnTable env.table s.assetType with
  | none => { result := none, subTableRolled := false, fallbackCard := none }
  | some typeResult =>
    let typeName := jsTrim (jsToUpper typeResult.name)
    match AssetGenerator._resolveTypeKey typeName promptResult with
    | none =>
      { result := none, subTableRolled := false,
        fallbackCard := some typeResult }
    | some subTableKey =>
      match rollOnTable env.table (s.subTable subTableKey) with
      | none =>
        { result := some
            { typeResult := typeResult, subResult := none,
              subTableKey := subTableKey, actor := none }
          subTableRolled := true, fallbackCard := none }
      | some subResult =>
        let actorUuid := jsTrim subResult.documentUuid
        let actor := if actorUuid = "" then none else env.actor actorUuid
        { result := some
            { typeResult := typeResult, subResult := some subResult,
              subTableKey := subTableKey, actor := actor }
          subTableRolled := true, fallbackCard := none }

/-- A source STA actor as read by the converter: its `type` string and the
four rated-stat objects. -/
structure SourceActor where
  name : String
  img : String
  type : String
  attributes : StatMap
  disciplines : StatMap
  systems : StatMap
  departments : StatMap

/-- `ActorConverter._getConversionType`: `character` converts as a
character, `starship`/`smallcraft` as a ship, anything else is
unsupported. -/
def _getConversionType (a : SourceActor) : Option String :=
  if a.type = "character" then some "character"
  else if a.type = "starship" ∨ a.type = "smallcraft" then some "ship"
  else none

/-- The asset record built by the conversion loop (`assetData.system`
fields plus name/img). -/
structure Asset where
  name : String
  img : String
  assetType : String
  selectedPower : PowerKey
  primaryPower : PowerKey
  powers : PowerKey → PowerRating

/-- The asset record one loop iteration of `convertFolder` creates for a
source, given the chosen primary power. -/
def mkAsset (source : SourceActor) (primaryPower : PowerKey) : Asset :=
  let conversionType := _getConversionType source
  let powers :=
    if conversionType = some "character" then
      _calcCharacterPowers source.attributes source.disciplines
    else
      _calcShipPowers source.systems source.departments
  let assetType :=
    if conversionType = some "character" then "character" else "ship"
  { name := source.name, img := source.img, assetType := assetType,
    selectedPower := primaryPower, primaryPower := primaryPower,
    powers := powers }

/-- The batch loop of `ActorConverter.convertFolder`, after the folder
dialog: filter the folder's actors to the eligible ones, then convert each
independently; `choose` is the outcome of `_choosePrimaryPower` for each
source (`none` = the user cancelled the choice dialog), and a cancelled
source is skipped with `continue`. -/
def convertFolder (folderActors : List SourceActor)
    (choose : SourceActor → Option PowerKey) : List Asset :=
  let actors := folderActors.filter (fun a => (_getConversionType a).isSome)
  actors.foldl
    (fun results source =>
      match choose source with
      | none => results
      | some primaryPower => results ++ [mkAsset source primaryPower])
    []

/-- The per-asset lines of the summary chat card posted by
`ActorConverter._postFolderChatCard`: each created asset's name with its
primary power. -/
def _postFolderChatCard (assets : List Asset) : List (String × PowerKey) :=
  assets.map (fun a => (a.name, a.primaryPower))

/-! ### Helper lemmas -/

/-- The batch loop with skip-on-cancel is a `filterMap` over the actors. -/
theorem convertFolder_foldl (choose : SourceActor → Option PowerKey) :
    ∀ (l : List SourceActor) (acc : List Asset),
      l.foldl
        (fun results source =>
          match choose source with
          | none => results
          | some primaryPower => results ++ [mkAsset source primaryPower])
        acc
      = acc ++ l.filterMap (fun source => (choose source).map (mkAsset source)) := by
  intro l
  induction l with
  | nil => simp
  | cons a t ih =>
    intro acc
    cases hca : choose a with
    | none => simp [List.foldl_cons, hca, ih, List.filterMap_cons]
    | some p => simp [List.foldl_cons, hca, ih, List.filterMap_cons]

/-- Length of the converted list counts the sources whose choice succeeded. -/
theorem length_filterMap_choose (choose : SourceActor → Option PowerKey) :
    ∀ (l : List SourceActor),
      (l.filterMap (fun source => (choose source).map (mkAsset source))).length
        = (l.filter (fun source => (choose source).isSome)).length := by
  intro l
  induction l with
  | nil => rfl
  | cons a t ih =>
    cases hca : choose a with
    | none => simp [List.filterMap_cons, List.filter_cons, hca, ih]
    | some p => simp [List.filterMap_cons, List.filter_cons, hca, ih]

/-! ### Claim theorems: derivation formulas and bounds -/

/-- C2: for every source and both domains, each of the 5 categories gets
`value = primaryStat + focusStat` and `focus = focusStat` per the domain's
formula table; a field absent from the source (or present without a value)
contributes `0`; a source with no stat fields at all yields an all-zero
power set. -/
theorem derive_powers_formula :
    (∀ (attrs discs : StatMap) (key : PowerKey),
        (_calcCharacterPowers attrs discs key).value =
          statVal attrs (CHARACTER_FORMULAS key).attr +
            statVal discs (CHARACTER_FORMULAS key).disc ∧
        (_calcCharacterPowers attrs discs key).focus =
          statVal discs (CHARACTER_FORMULAS key).disc) ∧
    (∀ (systems depts : StatMap) (key : PowerKey),
        (_calcShipPowers systems depts key).value =
          statVal systems (SHIP_FORMULAS key).sys +
            statVal depts (SHIP_FORMULAS key).dept ∧
        (_calcShipPowers systems depts key).focus =
          statVal depts (SHIP_FORMULAS key).dept) ∧
    (∀ (m : StatMap) (f : String), List.lookup f m = none → statVal m f = 0) ∧
    (∀ (m : StatMap) (f : String),
        List.lookup f m = some none → statVal m f = 0) ∧
    (∀ key : PowerKey,
        _calcCharacterPowers [] [] key = ⟨0, 0⟩ ∧
        _calcShipPowers [] [] key = ⟨0, 0⟩) := by
  refine ⟨fun attrs discs key => ⟨rfl, rfl⟩,
    fun systems depts key => ⟨rfl, rfl⟩,
    fun m f h => by simp [statVal, h],
    fun m f h => by simp [statVal, h],
    fun key => ⟨?_, ?_⟩⟩ <;> cases key <;> rfl

/-- C5 fails as stated: the derivation does not clamp, so a source stat of
21 yields a power value of 26, outside the schema bound `0..20`. -/
theorem c5_counterexample :
    20 <
      (_calcCharacterPowers [("insight", some 21)] [("medicine", some 5)]
        PowerKey.medical).value ∧
    ¬ powerFieldValid
        (_calcCharacterPowers [("insight", some 21)] [("medicine", some 5)]
          PowerKey.medical) := by decide

/-- C5 (amended): the derivation performs no clamping, so the schema bounds
hold exactly when the source's referenced stats are bounded: if each
referenced primary stat lies in `0..15` and each referenced focus stat in
`0..5`, every derived rating satisfies the `powerField` bounds
(`value` in `0..20`, `focus` in `0..5`). -/
theorem derived_powers_bounds (attrs discs systems depts : StatMap)
    (hattr : ∀ key : PowerKey,
      0 ≤ statVal attrs (CHARACTER_FORMULAS key).attr ∧
        statVal attrs (CHARACTER_FORMULAS key).attr ≤ 15)
    (hdisc : ∀ key : PowerKey,
      0 ≤ statVal discs (CHARACTER_FORMULAS key).disc ∧
        statVal discs (CHARACTER_FORMULAS key).disc ≤ 5)
    (hsys : ∀ key : PowerKey,
      0 ≤ statVal systems (SHIP_FORMULAS key).sys ∧
        statVal systems (SHIP_FORMULAS key).sys ≤ 15)
    (hdept : ∀ key : PowerKey,
      0 ≤ statVal depts (SHIP_FORMULAS key).dept ∧
        statVal depts (SHIP_FORMULAS key).dept ≤ 5) :
    ∀ key : PowerKey,
      powerFieldValid (_calcCharacterPowers attrs discs key) ∧
      powerFieldValid (_calcShipPowers systems depts key) := by
  intro key
  obtain ⟨a1, a2⟩ := hattr key
  obtain ⟨d1, d2⟩ := hdisc key
  obtain ⟨s1, s2⟩ := hsys key
  obtain ⟨p1, p2⟩ := hdept key
  unfold _calcCharacterPowers _calcShipPowers powerFieldValid
  dsimp only
  omega

/-- Witness for `derived_powers_bounds` at a concrete in-range source. -/
theorem derived_powers_bounds_witness :
    powerFieldValid
      (_calcCharacterPowers [("insight", some 7), ("daring", some 9)]
        [("medicine", some 2), ("security", some 3)] PowerKey.military) ∧
    powerFieldValid
      (_calcShipPowers [("weapons", some 8)] [("conn", some 4)]
        PowerKey.military) :=
  derived_powers_bounds _ _ _ _ (by decide) (by decide) (by decide) (by decide)
    PowerKey.military

/-! ### Claim theorems: generation pipeline -/

/-- C8: when the category-table roll fails (identifier blank, or not
dereferencing to a table), both generators return `null` and never reach
the sub-table `rollOnTable` call. -/
theorem category_failure_aborts_before_subroll
    (s : PoiSettings) (env : GenEnv)
    (s2 : AssetSettings) (env2 : GenEnv) (promptResult : Option String)
    (hpoi : rollOnTable env.table s.pointOfInterestType = none)
    (hasset : rollOnTable env2.table s2.assetType = none) :
    (PoiGenerator.generate s env).result = none ∧
    (PoiGenerator.generate s env).subTableRolled = false ∧
    (AssetGenerator.generate s2 env2 promptResult).result = none ∧
    (AssetGenerator.generate s2 env2 promptResult).subTableRolled = false := by
  unfold PoiGenerator.generate AssetGenerator.generate
  rw [hpoi, hasset]
  exact ⟨rfl, rfl, rfl, rfl⟩

/-- Witness for `category_failure_aborts_before_subroll`: blank category
table identifiers. -/
theorem category_failure_aborts_before_subroll_witness :
    (PoiGenerator.generate ⟨"", "", "", "", ""⟩
        ⟨fun _ => none, fun _ => none⟩).result = none ∧
    (PoiGenerator.generate ⟨"", "", "", "", ""⟩
        ⟨fun _ => none, fun _ => none⟩).subTableRolled = false ∧
    (AssetGenerator.generate ⟨"", "", "", ""⟩
        ⟨fun _ => none, fun _ => none⟩ none).result = none ∧
    (AssetGenerator.generate ⟨"", "", "", ""⟩
        ⟨fun _ => none, fun _ => none⟩ none).subTableRolled = false :=
  category_failure_aborts_before_subroll _ _ _ _ none (by decide) (by decide)

/-- C9: when the category roll and classification succeed but the
category's sub-table is unconfigured or not found, both generators return
a non-null report that keeps the category roll and the classified
sub-table key, with `subResult = null` and `actor = null`. -/
theorem subtable_failure_partial_report
    (s : PoiSettings) (env : GenEnv) (t : RollResult) (key : String)
    (s2 : AssetSettings) (env2 : GenEnv) (p : Option String)
    (t2 : RollResult) (key2 : String)
    (hcat : rollOnTable env.table s.pointOfInterestType = some t)
    (hcls : PoiGenerator._matchTypeKey (jsTrim (jsToUpper t.name)) = some key)
    (hsub : rollOnTable env.table (s.subTable key) = none)
    (hcat2 : rollOnTable env2.table s2.assetType = some t2)
    (hcls2 : AssetGenerator._resolveTypeKey (jsTrim (jsToUpper t2.name)) p =
      some key2)
    (hsub2 : rollOnTable env2.table (s2.subTable key2) = none) :
    (PoiGenerator.generate s env).result =
      some { typeResult := t, subResult := none, subTableKey := key,
             actor := none } ∧
    (AssetGenerator.generate s2 env2 p).result =
      some { typeResult := t2, subResult := none, subTableKey := key2,
             actor := none } := by
  unfold PoiGenerator.generate AssetGenerator.generate
  rw [hcat, hcat2]
  simp [hcls, hcls2, hsub, hsub2]

/-- Witness for `subtable_failure_partial_report`: a configured category
table classifying to a key whose sub-table identifier is blank. -/
theorem subtable_failure_partial_report_witness :
    (PoiGenerator.generate ⟨"cat", "", "", "", ""⟩
        ⟨fun u => if u = "cat" then some ⟨7, [⟨"Routine", "", ""⟩]⟩ else none,
         fun _ => none⟩).result =
      some { typeResult := ⟨7, "Routine", "", ""⟩, subResult := none,
             subTableKey := "routine", actor := none } ∧
    (AssetGenerator.generate ⟨"cat", "", "", ""⟩
        ⟨fun u => if u = "cat" then some ⟨3, [⟨"Ship", "", ""⟩]⟩ else none,
         fun _ => none⟩ none).result =
      some { typeResult := ⟨3, "Ship", "", ""⟩, subResult := none,
             subTableKey := "ship", actor := none } :=
  subtable_failure_partial_report _ _ _ _ _ _ none _ _
    (by decide) (by decide) (by decide) (by decide) (by decide) (by decide)

/-- C1 fails as stated: with the category table configured and rolling
"Mystery" (no keyword match), classification yields no key, and
`generate` returns `null` — not a non-null partial report — even though a
minimal fallback card is posted.  The same happens in the asset
generator. -/
theorem c1_counterexample :
    rollOnTable
        (fun u => if u = "cat" then some ⟨7, [⟨"Mystery", "", ""⟩]⟩ else none)
        "cat" = some ⟨7, "Mystery", "", ""⟩ ∧
    PoiGenerator._matchTypeKey (jsTrim (jsToUpper "Mystery")) = none ∧
    (PoiGenerator.generate ⟨"cat", "tt", "ex", "ro", "un"⟩
        ⟨fun u => if u = "cat" then some ⟨7, [⟨"Mystery", "", ""⟩]⟩ else none,
         fun _ => none⟩).result = none ∧
    (AssetGenerator.generate ⟨"cat", "ch", "sh", "re"⟩
        ⟨fun u => if u = "cat" then some ⟨7, [⟨"Mystery", "", ""⟩]⟩ else none,
         fun _ => none⟩ none).result = none := by decide

/-- C1 (amended): when the category roll succeeds but classification of its
name yields no key, both generators emit the minimal fallback card built
from the category roll alone — but their return value is `null`, exactly
as in an abort; the partial result survives only in the emitted card. -/
theorem classifyNull_emits_card_but_returns_null
    (s : PoiSettings) (env : GenEnv) (t : RollResult)
    (s2 : AssetSettings) (env2 : GenEnv) (p : Option String) (t2 : RollResult)
    (hcat : rollOnTable env.table s.pointOfInterestType = some t)
    (hcls : PoiGenerator._matchTypeKey (jsTrim (jsToUpper t.name)) = none)
    (hcat2 : rollOnTable env2.table s2.assetType = some t2)
    (hcls2 : AssetGenerator._resolveTypeKey (jsTrim (jsToUpper t2.name)) p =
      none) :
    (PoiGenerator.generate s env).result = none ∧
    (PoiGenerator.generate s env).fallbackCard = some t ∧
    (AssetGenerator.generate s2 env2 p).result = none ∧
    (AssetGenerator.generate s2 env2 p).fallbackCard = some t2 := by
  unfold PoiGenerator.generate AssetGenerator.generate
  rw [hcat, hcat2]
  simp [hcls, hcls2]

/-- Witness for `classifyNull_emits_card_but_returns_null` at the concrete
"Mystery" run. -/
theorem classifyNull_emits_card_but_returns_null_witness :
    (PoiGenerator.generate ⟨"cat", "tt", "ex", "ro", "un"⟩
        ⟨fun u => if u = "cat" then some ⟨7, [⟨"Mystery", "", ""⟩]⟩ else none,
         fun _ => none⟩).result = none ∧
    (PoiGenerator.generate ⟨"cat", "tt", "ex", "ro", "un"⟩
        ⟨fun u => if u = "cat" then some ⟨7, [⟨"Mystery", "", ""⟩]⟩ else none,
         fun _ => none⟩).fallbackCard = some ⟨7, "Mystery", "", ""⟩ ∧
    (AssetGenerator.generate ⟨"cat", "ch", "sh", "re"⟩
        ⟨fun u => if u = "cat" then some ⟨7, [⟨"Mystery", "", ""⟩]⟩ else none,
         fun _ => none⟩ none).result = none ∧
    (AssetGenerator.generate ⟨"cat", "ch", "sh", "re"⟩
        ⟨fun u => if u = "cat" then some ⟨7, [⟨"Mystery", "", ""⟩]⟩ else none,
         fun _ => none⟩ none).fallbackCard = some ⟨7, "Mystery", "", ""⟩ :=
  classifyNull_emits_card_but_returns_null _ _ _ _ _ none _
    (by decide) (by decide) (by decide) (by decide)

/-- C7: a type-roll name mentioning both CHARACTER and SHIP is never
classified directly — `_resolveTypeKey` returns exactly the external
dialog's outcome — and when that dialog is declined (`none`), the run is
cancelled with a `null` result instead of proceeding with a default
category. -/
theorem conditional_type_requires_decision
    (typeName : String) (p : Option String)
    (s : AssetSettings) (env : GenEnv) (t : RollResult)
    (h1 : strIncludes typeName "CHARACTER" = true)
    (h2 : strIncludes typeName "SHIP" = true)
    (hcat : rollOnTable env.table s.assetType = some t)
    (hname1 : strIncludes (jsTrim (jsToUpper t.name)) "CHARACTER" = true)
    (hname2 : strIncludes (jsTrim (jsToUpper t.name)) "SHIP" = true) :
    AssetGenerator._resolveTypeKey typeName p = p ∧
    (AssetGenerator.generate s env none).result = none := by
  have hres : ∀ (name : String) (q : Option String),
      strIncludes name "CHARACTER" = true → strIncludes name "SHIP" = true →
      AssetGenerator._resolveTypeKey name q = q := by
    intro name q hq1 hq2
    unfold AssetGenerator._resolveTypeKey
    simp [hq1, hq2]
  refine ⟨hres typeName p h1 h2, ?_⟩
  unfold AssetGenerator.generate
  rw [hcat]
  simp [hres _ none hname1 hname2]

/-- Witness for `conditional_type_requires_decision` at the literal
"CHARACTER OR SHIP" roll with a declined dialog. -/
theorem conditional_type_requires_decision_witness :
    AssetGenerator._resolveTypeKey "CHARACTER OR SHIP" (some "ship") =
      some "ship" ∧
    (AssetGenerator.generate ⟨"cat", "ch", "sh", "re"⟩
        ⟨fun u =>
          if u = "cat" then some ⟨11, [⟨"Character or Ship", "", ""⟩]⟩
          else none,
         fun _ => none⟩ none).result = none :=
  conditional_type_requires_decision "CHARACTER OR SHIP" (some "ship")
    ⟨"cat", "ch", "sh", "re"⟩
    ⟨fun u =>
      if u = "cat" then some ⟨11, [⟨"Character or Ship", "", ""⟩]⟩ else none,
     fun _ => none⟩
    ⟨11, "Character or Ship", "", ""⟩
    (by decide) (by decide) (by decide) (by decide) (by decide)

/-- C10: a configured, found table whose draw yields no result rows still
produces a non-null `RollResult` with name "No result" and empty
reference/description; `null` is returned only when the identifier is
blank or does not dereference to a table. -/
theorem rollOnTable_empty_draw_nonnull
    (fromUuid : String → Option RollTable) (uuid : String) (table : RollTable)
    (h1 : uuid ≠ "") (h2 : fromUuid uuid = some table)
    (h3 : table.results = []) :
    rollOnTable fromUuid uuid =
      some { roll := table.total, name := "No result", documentUuid := "",
             description := "" } ∧
    ∀ (f : String → Option RollTable) (u : String),
      rollOnTable f u = none ↔ u = "" ∨ f u = none := by
  constructor
  · unfold rollOnTable
    rw [if_neg h1, h2]
    simp [h3, jsOr]
  · intro f u
    unfold rollOnTable
    by_cases hu : u = ""
    · simp [hu]
    · rw [if_neg hu]
      cases hfu : f u <;> simp [hu]

/-- Witness for `rollOnTable_empty_draw_nonnull` on a concrete empty
table. -/
theorem rollOnTable_empty_draw_nonnull_witness :
    rollOnTable (fun u => if u = "empty" then some ⟨12, []⟩ else none)
        "empty" =
      some { roll := 12, name := "No result", documentUuid := "",
             description := "" } ∧
    ∀ (f : String → Option RollTable) (u : String),
      rollOnTable f u = none ↔ u = "" ∨ f u = none :=
  rollOnTable_empty_draw_nonnull _ _ ⟨12, []⟩ (by decide) (by decide) rfl

/-! ### Claim theorems: batch conversion -/

/-- C6: the batch loop of `convertFolder` isolates failures per source: it
equals a `filterMap` that keeps exactly the eligible sources whose primary
choice succeeded (so one cancelled choice skips only that source), the
summary card lists exactly the created assets with their primary powers,
and the result length counts exactly the non-cancelled eligible sources. -/
theorem convertFolder_skips_only_failed
    (folderActors : List SourceActor)
    (choose : SourceActor → Option PowerKey) :
    convertFolder folderActors choose =
      (folderActors.filter (fun a => (_getConversionType a).isSome)).filterMap
        (fun source => (choose source).map (mkAsset source)) ∧
    _postFolderChatCard (convertFolder folderActors choose) =
      ((folderActors.filter
          (fun a => (_getConversionType a).isSome)).filterMap
        (fun source => (choose source).map (mkAsset source))).map
        (fun a => (a.name, a.primaryPower)) ∧
    (convertFolder folderActors choose).length =
      ((folderActors.filter (fun a => (_getConversionType a).isSome)).filter
        (fun source => (choose source).isSome)).length := by
  have h : convertFolder folderActors choose =
      (folderActors.filter (fun a => (_getConversionType a).isSome)).filterMap
        (fun source => (choose source).map (mkAsset source)) := by
    unfold convertFolder
    rw [convertFolder_foldl]
    simp
  refine ⟨h, ?_, ?_⟩
  · rw [h]; rfl
  · rw [h, length_filterMap_choose]

/-! ### Helper lemmas for the cascading tie-break algorithm -/

/-- Membership in a JS-Set insertion. -/
theorem mem_addUnique {p q : PowerKey} {l : List PowerKey} :
    p ∈ addUnique l q ↔ p ∈ l ∨ p = q := by
  by_cases h : q ∈ l
  · simp only [addUnique, if_pos h]
    exact ⟨fun hp => Or.inl hp, fun hp => hp.elim id (fun e => e ▸ h)⟩
  · simp only [addUnique, if_neg h, List.mem_append, List.mem_singleton]

/-- Membership after folding a batch of insertions. -/
theorem mem_foldl_addUnique (ps : List PowerKey) :
    ∀ (acc : List PowerKey) (p : PowerKey),
      p ∈ ps.foldl addUnique acc ↔ p ∈ acc ∨ p ∈ ps := by
  induction ps with
  | nil => simp
  | cons a t ih =>
    intro acc p
    simp only [List.foldl_cons, ih, mem_addUnique, List.mem_cons]
    tauto

/-- Characterisation of the candidate set: a power is a candidate exactly
when some tied discipline maps to it via `DISC_TO_POWERS`. -/
theorem mem_candidatePowers {tied : List String} {p : PowerKey} :
    p ∈ candidatePowers tied ↔
      ∃ d ∈ tied, ∃ ps, DISC_TO_POWERS d = some ps ∧ p ∈ ps := by
  suffices h : ∀ (l : List String) (acc : List PowerKey) (p : PowerKey),
      p ∈ l.foldl
        (fun acc disc =>
          match DISC_TO_POWERS disc with
          | some mapped => mapped.foldl addUnique acc
          | none => acc) acc ↔
      p ∈ acc ∨ ∃ d ∈ l, ∃ ps, DISC_TO_POWERS d = some ps ∧ p ∈ ps by
    simpa [candidatePowers] using h tied [] p
  intro l
  induction l with
  | nil => simp
  | cons a t ih =>
    intro acc p
    simp only [List.foldl_cons]
    cases hda : DISC_TO_POWERS a with
    | none =>
      rw [ih]
      simp only [List.mem_cons]
      constructor
      · rintro (h | ⟨d, hd, ps, hps, hp⟩)
        · exact Or.inl h
        · exact Or.inr ⟨d, Or.inr hd, ps, hps, hp⟩
      · rintro (h | ⟨d, rfl | hd, ps, hps, hp⟩)
        · exact Or.inl h
        · rw [hda] at hps; cases hps
        · exact Or.inr ⟨d, hd, ps, hps, hp⟩
    | some mapped =>
      rw [ih]
      simp only [mem_foldl_addUnique, List.mem_cons]
      constructor
      · rintro ((h | h) | ⟨d, hd, ps, hps, hp⟩)
        · exact Or.inl h
        · exact Or.inr ⟨a, Or.inl rfl, mapped, hda, h⟩
        · exact Or.inr ⟨d, Or.inr hd, ps, hps, hp⟩
      · rintro (h | ⟨d, rfl | hd, ps, hps, hp⟩)
        · exact Or.inl (Or.inl h)
        · rw [hda] at hps
          cases hps
          exact Or.inl (Or.inr hp)
        · exact Or.inr ⟨d, hd, ps, hps, hp⟩

/-- Invariant of the best-candidate fold of `_choosePrimaryByHighest`:
every kept candidate attains `bestVal`, `bestVal` is `-1` while nothing is
kept, every processed candidate's value is at most `bestVal`, kept
candidates come from the processed list, and `bestVal` only grows. -/
theorem bestFold_spec (powers : PowerKey → PowerRating) :
    ∀ (c : List PowerKey) (st : Int × List PowerKey),
      (∀ p ∈ st.2, (powers p).value = st.1) →
      (st.2 = [] → st.1 = -1) →
      (∀ p ∈ (c.foldl (bestStep powers) st).2,
          (powers p).value = (c.foldl (bestStep powers) st).1) ∧
      ((c.foldl (bestStep powers) st).2 = [] →
          (c.foldl (bestStep powers) st).1 = -1) ∧
      (∀ q ∈ c, (powers q).value ≤ (c.foldl (bestStep powers) st).1) ∧
      (∀ p ∈ (c.foldl (bestStep powers) st).2, p ∈ st.2 ∨ p ∈ c) ∧
      st.1 ≤ (c.foldl (bestStep powers) st).1 := by
  intro c
  induction c with
  | nil =>
    intro st h1 h2
    exact ⟨h1, h2, by simp, fun p hp => Or.inl hp, le_refl _⟩
  | cons a t ih =>
    intro st h1 h2
    simp only [List.foldl_cons]
    by_cases hlt : st.1 < (powers a).value
    · have hst : bestStep powers st a = ((powers a).value, [a]) := by
        simp [bestStep, hlt]
      rw [hst]
      obtain ⟨i1, i2, i3, i4, i5⟩ :=
        ih ((powers a).value, [a]) (by simp) (by simp)
      refine ⟨i1, i2, ?_, ?_, ?_⟩
      · intro q hq
        rcases List.mem_cons.mp hq with rfl | hq
        · exact i5
        · exact i3 q hq
      · intro p hp
        rcases i4 p hp with h | h
        · rcases List.mem_singleton.mp h with rfl
          exact Or.inr (List.mem_cons_self _ _)
        · exact Or.inr (List.mem_cons_of_mem _ h)
      · exact le_trans (le_of_lt hlt) i5
    · by_cases heq : (powers a).value = st.1
      · have hst : bestStep powers st a = (st.1, st.2 ++ [a]) := by
          simp [bestStep, hlt, heq]
        rw [hst]
        obtain ⟨i1, i2, i3, i4, i5⟩ := ih (st.1, st.2 ++ [a])
          (by
            intro p hp
            rcases List.mem_append.mp hp with h | h
            · exact h1 p h
            · rcases List.mem_singleton.mp h with rfl
              exact heq)
          (by simp)
        refine ⟨i1, i2, ?_, ?_, i5⟩
        · intro q hq
          rcases List.mem_cons.mp hq with rfl | hq
          · exact heq ▸ i5
          · exact i3 q hq
        · intro p hp
          rcases i4 p hp with h | h
          · rcases List.mem_append.mp h with h | h
            · exact Or.inl h
            · rcases List.mem_singleton.mp h with rfl
              exact Or.inr (List.mem_cons_self _ _)
          · exact Or.inr (List.mem_cons_of_mem _ h)
      · have hst : bestStep powers st a = st := by
          simp [bestStep, hlt, heq]
        rw [hst]
        obtain ⟨i1, i2, i3, i4, i5⟩ := ih st h1 h2
        refine ⟨i1, i2, ?_, ?_, i5⟩
        · intro q hq
          rcases List.mem_cons.mp hq with rfl | hq
          · exact le_trans (le_of_not_lt hlt) i5
          · exact i3 q hq
        · intro p hp
          rcases i4 p hp with h | h
          · exact Or.inl h
          · exact Or.inr (List.mem_cons_of_mem _ h)

/-- With nonnegative power values and a nonempty candidate set, the
best-candidate list is nonempty and consists of candidates of maximal
value. -/
theorem bestPowers_spec (powers : PowerKey → PowerRating)
    (c : List PowerKey) (hpow : ∀ k, 0 ≤ (powers k).value) (hc : c ≠ []) :
    bestPowers powers c ≠ [] ∧
    ∀ p ∈ bestPowers powers c,
      p ∈ c ∧ ∀ q ∈ c, (powers q).value ≤ (powers p).value := by
  obtain ⟨i1, i2, i3, i4, _⟩ :=
    bestFold_spec powers c (-1, []) (by simp) (by simp)
  unfold bestPowers
  constructor
  · intro hemp
    obtain ⟨q, hq⟩ := List.exists_mem_of_ne_nil c hc
    have h3 := i3 q hq
    have h0 := hpow q
    have hm1 := i2 hemp
    omega
  · intro p hp
    refine ⟨?_, fun q hq => ?_⟩
    · rcases i4 p hp with h | h
      · simp at h
      · exact h
    · exact le_trans (i3 q hq) (le_of_eq (i1 p hp).symm)

/-- A random pick from a nonempty list succeeds and returns a member. -/
theorem randPick_spec {α : Type} (l : List α) (r : Nat) (h : l ≠ []) :
    ∃ p, randPick l r = some p ∧ p ∈ l := by
  have hlen : 0 < l.length := List.length_pos.mpr h
  have hlt : r % l.length < l.length := Nat.mod_lt _ hlen
  exact ⟨l[r % l.length],
    by simp [randPick, List.getElem?_eq_getElem hlt],
    List.getElem_mem _⟩

/-- Membership in keys-at-a-score. -/
theorem mem_keysAt {l : List (String × Int)} {v : Int} {d : String} :
    d ∈ keysAt l v ↔ ∃ e ∈ l, e.2 = v ∧ e.1 = d := by
  unfold keysAt
  simp only [List.mem_map, List.mem_filter, decide_eq_true_eq]
  constructor
  · rintro ⟨e, ⟨he, hv⟩, hd⟩
    exact ⟨e, he, hv, hd⟩
  · rintro ⟨e, he, hv, hd⟩
    exact ⟨e, ⟨he, hv⟩, hd⟩

/-- Central characterisation of tier candidates: a power is a candidate of
the tier at score `v` exactly when some entry with score `v` has a
discipline mapping to it. -/
theorem mem_tierCands {l : List (String × Int)} {v : Int} {p : PowerKey} :
    p ∈ tierCands l v ↔
      ∃ e ∈ l, e.2 = v ∧
        ∃ ps, DISC_TO_POWERS e.1 = some ps ∧ p ∈ ps := by
  unfold tierCands
  rw [mem_candidatePowers]
  constructor
  · rintro ⟨d, hd, ps, hps, hp⟩
    rcases mem_keysAt.mp hd with ⟨e, he, hv, hd1⟩
    exact ⟨e, he, hv, ps, hd1 ▸ hps, hp⟩
  · rintro ⟨e, he, hv, ps, hps, hp⟩
    exact ⟨e.1, mem_keysAt.mpr ⟨e, he, hv, rfl⟩, ps, hps, hp⟩

/-- On a descending-sorted list whose values are all at most `v`, filtering
for value `v` is the same as taking the leading run of value `v`. -/
theorem filter_eq_takeWhile_sorted (v : Int) :
    ∀ (l : List (String × Int)), List.Sorted descR l →
      (∀ x ∈ l, x.2 ≤ v) →
      l.filter (fun e => e.2 = v) = l.takeWhile (fun e => e.2 = v) := by
  intro l
  induction l with
  | nil => intro _ _; rfl
  | cons a t ih =>
    intro hs hle
    by_cases ha : a.2 = v
    · rw [List.filter_cons_of_pos (by simpa using ha),
        List.takeWhile_cons_of_pos (by simpa using ha),
        ih hs.of_cons (fun x hx => hle x (List.mem_cons_of_mem _ hx))]
    · rw [List.filter_cons_of_neg (by simpa using ha),
        List.takeWhile_cons_of_neg (by simpa using ha)]
      rw [List.filter_eq_nil_iff]
      intro x hx
      have hav : a.2 < v :=
        lt_of_le_of_ne (hle a (List.mem_cons_self _ _)) ha
      have hxa : x.2 ≤ a.2 := (List.sorted_cons.mp hs).1 x hx
      simp only [decide_eq_true_eq]
      omega

/-- On a descending-sorted list whose values are all at most `v`, every
entry surviving the drop of the leading `v`-run has value strictly below
`v`. -/
theorem dropWhile_lt_sorted (v : Int) :
    ∀ (l : List (String × Int)), List.Sorted descR l →
      (∀ x ∈ l, x.2 ≤ v) →
      ∀ x ∈ l.dropWhile (fun e => e.2 = v), x.2 < v := by
  intro l
  induction l with
  | nil => intro _ _ x hx; simp at hx
  | cons a t ih =>
    intro hs hle
    by_cases ha : a.2 = v
    · rw [List.dropWhile_cons_of_pos (by simpa using ha)]
      exact ih hs.of_cons (fun x hx => hle x (List.mem_cons_of_mem _ hx))
    · rw [List.dropWhile_cons_of_neg (by simpa using ha)]
      intro x hx
      have hav : a.2 < v :=
        lt_of_le_of_ne (hle a (List.mem_cons_self _ _)) ha
      rcases List.mem_cons.mp hx with rfl | hx
      · exact hav
      · have hxa : x.2 ≤ a.2 := (List.sorted_cons.mp hs).1 x hx
        omega

/-- Filtering for a score other than `v` ignores the leading `v`-run. -/
theorem filter_dropWhile_ne {v w : Int} (hne : w ≠ v)
    (l : List (String × Int)) :
    l.filter (fun e => e.2 = w) =
      (l.dropWhile (fun e => e.2 = v)).filter (fun e => e.2 = w) := by
  conv_lhs =>
    rw [← List.takeWhile_append_dropWhile (fun e => decide (e.2 = v)) l]
  rw [List.filter_append]
  have htw :
      (l.takeWhile (fun e => e.2 = v)).filter (fun e => e.2 = w) = [] := by
    rw [List.filter_eq_nil_iff]
    intro x hx
    have hxv := List.mem_takeWhile_imp hx
    simp only [decide_eq_true_eq] at hxv ⊢
    omega
  rw [htw, List.nil_append]

/-- In a sorted list, the tied group assembled by the walk at the head is
exactly the keys of the head-value tier. -/
theorem tied_eq_keysAt (disc : String) (currentVal : Int)
    (rest : List (String × Int))
    (hs : List.Sorted descR ((disc, currentVal) :: rest)) :
    disc :: (rest.takeWhile (fun e => e.2 = currentVal)).map Prod.fst =
      keysAt ((disc, currentVal) :: rest) currentVal := by
  unfold keysAt
  rw [List.filter_cons_of_pos (by simp),
    ← filter_eq_takeWhile_sorted currentVal rest hs.of_cons
      (fun x hx => (List.sorted_cons.mp hs).1 x hx)]
  rfl

/-- Candidate membership transfers along sublists. -/
theorem tierCands_sublist {l₁ l₂ : List (String × Int)} (h : l₁.Sublist l₂)
    {v : Int} {p : PowerKey} (hp : p ∈ tierCands l₁ v) :
    p ∈ tierCands l₂ v := by
  rcases mem_tierCands.mp hp with ⟨e, he, hv, ps, hps, hpp⟩
  exact mem_tierCands.mpr ⟨e, h.subset he, hv, ps, hps, hpp⟩

/-- If no tier of a sorted list contributes a candidate, the walk falls
through and returns `none`. -/
theorem walkTiersGo_none (powers : PowerKey → PowerRating) (r : Nat) :
    ∀ (fuel : Nat) (l : List (String × Int)), l.length ≤ fuel →
      List.Sorted descR l → (∀ v, tierCands l v = []) →
      walkTiersGo powers r fuel l = none := by
  intro fuel
  induction fuel with
  | zero =>
    intro l hl _ _
    rw [List.length_eq_zero.mp (Nat.le_zero.mp hl)]
    rfl
  | succ fuel ih =>
    intro l hl hs hno
    cases l with
    | nil => rfl
    | cons hd rest =>
      obtain ⟨disc, currentVal⟩ := hd
      have htied := tied_eq_keysAt disc currentVal rest hs
      have hcand : candidatePowers
          (disc :: (rest.takeWhile (fun e => e.2 = currentVal)).map
            Prod.fst) = [] := by
        rw [htied]
        exact hno currentVal
      have hrl : rest.length ≤ fuel := by
        simp only [List.length_cons] at hl
        omega
      have hdrop : walkTiersGo powers r fuel
          (rest.dropWhile (fun e => e.2 = currentVal)) = none := by
        apply ih
        · exact le_trans ((List.dropWhile_sublist _).length_le) hrl
        · exact List.Pairwise.sublist (List.dropWhile_sublist _) hs.of_cons
        · intro v
          rw [List.eq_nil_iff_forall_not_mem]
          intro p hp
          have hmem : p ∈ tierCands ((disc, currentVal) :: rest) v :=
            tierCands_sublist
              ((List.dropWhile_sublist _).trans (List.sublist_cons_self _ _)) hp
          rw [hno v] at hmem
          simp at hmem
      simp [walkTiersGo, hcand, hdrop]

/-- With nonnegative power values, the walk never returns the JS
`undefined` outcome: it either falls through or returns a category. -/
theorem walkTiersGo_isSome (powers : PowerKey → PowerRating) (r : Nat)
    (hpow : ∀ k, 0 ≤ (powers k).value) :
    ∀ (fuel : Nat) (l : List (String × Int)), l.length ≤ fuel →
      walkTiersGo powers r fuel l = none ∨
      ∃ p, walkTiersGo powers r fuel l = some (some p) := by
  intro fuel
  induction fuel with
  | zero =>
    intro l hl
    left
    rw [List.length_eq_zero.mp (Nat.le_zero.mp hl)]
    rfl
  | succ fuel ih =>
    intro l hl
    cases l with
    | nil => left; rfl
    | cons hd rest =>
      obtain ⟨disc, currentVal⟩ := hd
      by_cases hcand : candidatePowers
          (disc :: (rest.takeWhile (fun e => e.2 = currentVal)).map
            Prod.fst) = []
      · have hrl : rest.length ≤ fuel := by
          simp only [List.length_cons] at hl
          omega
        have := ih (rest.dropWhile (fun e => e.2 = currentVal))
          (le_trans ((List.dropWhile_sublist _).length_le) hrl)
        simpa [walkTiersGo, hcand] using this
      · right
        obtain ⟨hbne, _⟩ := bestPowers_spec powers _ hpow hcand
        obtain ⟨p, hp, _⟩ := randPick_spec _ r hbne
        have hlen : (candidatePowers
            (disc :: (rest.takeWhile (fun e => e.2 = currentVal)).map
              Prod.fst)).length ≠ 0 :=
          fun h => hcand (List.length_eq_zero.mp h)
        exact ⟨p, by simp [walkTiersGo, hlen, hp]⟩

/-- Main correctness of the walk on a sorted list: if `v` is the highest
score whose tier contributes candidates, the walk stops at that tier and
returns a candidate of maximal derived value. -/
theorem walkTiersGo_max (powers : PowerKey → PowerRating) (r : Nat)
    (hpow : ∀ k, 0 ≤ (powers k).value) :
    ∀ (fuel : Nat) (l : List (String × Int)) (v : Int), l.length ≤ fuel →
      List.Sorted descR l →
      tierCands l v ≠ [] →
      (∀ w, tierCands l w ≠ [] → w ≤ v) →
      ∃ p, walkTiersGo powers r fuel l = some (some p) ∧
        p ∈ tierCands l v ∧
        ∀ q ∈ tierCands l v, (powers q).value ≤ (powers p).value := by
  intro fuel
  induction fuel with
  | zero =>
    intro l v hl _ hv _
    rw [List.length_eq_zero.mp (Nat.le_zero.mp hl)] at hv
    exact absurd rfl hv
  | succ fuel ih =>
    intro l v hl hs hv hmax
    cases l with
    | nil => exact absurd rfl hv
    | cons hd rest =>
      obtain ⟨disc, currentVal⟩ := hd
      have htied := tied_eq_keysAt disc currentVal rest hs
      have hrl : rest.length ≤ fuel := by
        simp only [List.length_cons] at hl
        omega
      by_cases hcand : candidatePowers
          (disc :: (rest.takeWhile (fun e => e.2 = currentVal)).map
            Prod.fst) = []
      · -- the head tier contributes nothing: recurse past it
        have hcv : tierCands ((disc, currentVal) :: rest) currentVal = [] := by
          unfold tierCands
          rw [← htied]
          exact hcand
        have hvne : v ≠ currentVal := fun he => hv (he ▸ hcv)
        have hfil : ∀ w, w ≠ currentVal →
            tierCands ((disc, currentVal) :: rest) w =
              tierCands (rest.dropWhile (fun e => e.2 = currentVal)) w := by
          intro w hw
          unfold tierCands keysAt
          rw [filter_dropWhile_ne hw ((disc, currentVal) :: rest),
            List.dropWhile_cons_of_pos (by simp)]
        have hdcv : tierCands (rest.dropWhile (fun e => e.2 = currentVal))
            currentVal = [] := by
          rw [List.eq_nil_iff_forall_not_mem]
          intro p hp
          rcases mem_tierCands.mp hp with ⟨e, he, hev, _⟩
          have hlt : e.2 < currentVal :=
            dropWhile_lt_sorted currentVal rest hs.of_cons
              (fun y hy => (List.sorted_cons.mp hs).1 y hy) e he
          omega
        have hvd : tierCands (rest.dropWhile (fun e => e.2 = currentVal))
            v ≠ [] := by
          rw [← hfil v hvne]
          exact hv
        have hmaxd : ∀ w,
            tierCands (rest.dropWhile (fun e => e.2 = currentVal)) w ≠ [] →
            w ≤ v := by
          intro w hw
          by_cases hwc : w = currentVal
          · exact absurd hdcv (hwc ▸ hw)
          · exact hmax w (by rw [hfil w hwc]; exact hw)
        obtain ⟨p, hwp, hmem, hbest⟩ :=
          ih (rest.dropWhile (fun e => e.2 = currentVal)) v
            (le_trans ((List.dropWhile_sublist _).length_le) hrl)
            (List.Pairwise.sublist (List.dropWhile_sublist _) hs.of_cons)
            hvd hmaxd
        refine ⟨p, ?_, ?_, ?_⟩
        · simpa [walkTiersGo, hcand] using hwp
        · rw [hfil v hvne]
          exact hmem
        · intro q hq
          exact hbest q (by rw [← hfil v hvne]; exact hq)
      · -- the head tier contributes: this is the stopping tier, so v is its
        -- score and the best candidate is returned
        have hccv : tierCands ((disc, currentVal) :: rest) currentVal
            ≠ [] := by
          unfold tierCands
          rw [← htied]
          exact hcand
        have hcvv : currentVal ≤ v := hmax currentVal hccv
        have hvcv : v ≤ currentVal := by
          obtain ⟨p0, hp0⟩ := List.exists_mem_of_ne_nil _ hv
          rcases mem_tierCands.mp hp0 with ⟨e, he, hev, _⟩
          rcases List.mem_cons.mp he with rfl | he
          · simp only at hev
            omega
          · have hle : e.2 ≤ currentVal := (List.sorted_cons.mp hs).1 e he
            omega
        have hveq : v = currentVal := le_antisymm hvcv hcvv
        obtain ⟨hbne, hbprop⟩ := bestPowers_spec powers _ hpow hcand
        obtain ⟨p, hp, hpmem⟩ := randPick_spec _ r hbne
        obtain ⟨hpc, hpmax⟩ := hbprop p hpmem
        have hlen : (candidatePowers
            (disc :: (rest.takeWhile (fun e => e.2 = currentVal)).map
              Prod.fst)).length ≠ 0 :=
          fun h => hcand (List.length_eq_zero.mp h)
        refine ⟨p, by simp [walkTiersGo, hlen, hp], ?_, ?_⟩
        · rw [hveq]
          unfold tierCands
          rw [← htied]
          exact hpc
        · intro q hq
          apply hpmax
          rw [hveq] at hq
          unfold tierCands at hq
          rw [← htied] at hq
          exact hq

/-! ### Claim theorems: primary-power selection -/

/-- C4: the `highest` policy is total: for every scores map (including one
with no mapped sub-skill and the empty map) and every derived power set
(whose values are nonnegative, as the `powerField` schema requires), it
returns exactly one category — never `null` and never an error — falling
back to a uniform random pick over all five categories when no tier ever
contributes a candidate. -/
theorem highest_selection_total (scores : StatMap)
    (powers : PowerKey → PowerRating) (r rFallback : Nat)
    (hpow : ∀ k, 0 ≤ (powers k).value) :
    ∃ p, _choosePrimaryByHighest scores powers r rFallback = some p := by
  rcases walkTiersGo_isSome powers r hpow
      ((scoreEntries scores).insertionSort descR).length
      ((scoreEntries scores).insertionSort descR) le_rfl with h | ⟨p, h⟩
  · obtain ⟨p, hp, _⟩ :=
      randPick_spec POWER_KEYS rFallback (by simp [POWER_KEYS])
    rw [List.length_insertionSort] at h
    exact ⟨p, by simp [_choosePrimaryByHighest, walkTiers, h, hp]⟩
  · rw [List.length_insertionSort] at h
    exact ⟨p, by simp [_choosePrimaryByHighest, walkTiers, h]⟩

/-- Witness for `highest_selection_total`: a scores map whose only
sub-skill (engineering) maps to no category, forcing the uniform fallback. -/
theorem highest_selection_total_witness :
    ∃ p, _choosePrimaryByHighest [("engineering", some 3)]
      (fun _ => ⟨0, 0⟩) 0 2 = some p :=
  highest_selection_total _ _ 0 2 (by decide)

/-- C3: under the `highest` policy, if some tier contributes a mapped
candidate and `v` is the highest score among contributing tiers, the
returned category is a candidate of that tier with maximal derived value
(power values being nonnegative per the schema). -/
theorem highest_picks_max_of_top_tier (scores : StatMap)
    (powers : PowerKey → PowerRating) (r rFallback : Nat) (v : Int)
    (hpow : ∀ k, 0 ≤ (powers k).value)
    (hv : tierCands (scoreEntries scores) v ≠ [])
    (hmax : ∀ w, tierCands (scoreEntries scores) w ≠ [] → w ≤ v) :
    ∃ p, _choosePrimaryByHighest scores powers r rFallback = some p ∧
      p ∈ tierCands (scoreEntries scores) v ∧
      ∀ q ∈ tierCands (scoreEntries scores) v,
        (powers q).value ≤ (powers p).value := by
  have hperm := List.perm_insertionSort descR (scoreEntries scores)
  have hsorted := List.sorted_insertionSort descR (scoreEntries scores)
  have hmemiff : ∀ (w : Int) (p : PowerKey),
      p ∈ tierCands ((scoreEntries scores).insertionSort descR) w ↔
        p ∈ tierCands (scoreEntries scores) w := by
    intro w p
    simp only [mem_tierCands]
    constructor
    · rintro ⟨e, he, hv2, ps, hps, hp⟩
      exact ⟨e, hperm.mem_iff.mp he, hv2, ps, hps, hp⟩
    · rintro ⟨e, he, hv2, ps, hps, hp⟩
      exact ⟨e, hperm.mem_iff.mpr he, hv2, ps, hps, hp⟩
  have hne : ∀ w : Int,
      tierCands ((scoreEntries scores).insertionSort descR) w ≠ [] ↔
        tierCands (scoreEntries scores) w ≠ [] := by
    intro w
    constructor
    · intro h hnil
      obtain ⟨p, hp⟩ := List.exists_mem_of_ne_nil _ h
      rw [hmemiff w p, hnil] at hp
      simp at hp
    · intro h hnil
      obtain ⟨p, hp⟩ := List.exists_mem_of_ne_nil _ h
      rw [← hmemiff w p, hnil] at hp
      simp at hp
  obtain ⟨p, hwp, hmem, hbest⟩ :=
    walkTiersGo_max powers r hpow
      ((scoreEntries scores).insertionSort descR).length
      ((scoreEntries scores).insertionSort descR) v le_rfl hsorted
      ((hne v).mpr hv) (fun w hw => hmax w ((hne w).mp hw))
  rw [List.length_insertionSort] at hwp
  exact ⟨p, by simp [_choosePrimaryByHighest, walkTiers, hwp],
    (hmemiff v p).mp hmem,
    fun q hq => hbest q ((hmemiff v q).mpr hq)⟩

/-- Witness for `highest_picks_max_of_top_tier`: the spec's example
disciplines {science 5, command 5, security 3}, where the top tier's
candidates are science and social and science has the higher derived
value. -/
theorem highest_picks_max_of_top_tier_witness :
    ∃ p, _choosePrimaryByHighest
        [("science", some 5), ("command", some 5), ("security", some 3)]
        (fun k => match k with
          | .science => ⟨9, 4⟩
          | .social => ⟨7, 2⟩
          | _ => ⟨1, 0⟩) 0 0 = some p ∧
      p ∈ tierCands (scoreEntries
        [("science", some 5), ("command", some 5), ("security", some 3)]) 5 ∧
      ∀ q ∈ tierCands (scoreEntries
          [("science", some 5), ("command", some 5), ("security", some 3)]) 5,
        ((fun k => match k with
          | PowerKey.science => (⟨9, 4⟩ : PowerRating)
          | PowerKey.social => ⟨7, 2⟩
          | _ => ⟨1, 0⟩) q).value ≤
        ((fun k => match k with
          | PowerKey.science => (⟨9, 4⟩ : PowerRating)
          | PowerKey.social => ⟨7, 2⟩
          | _ => ⟨1, 0⟩) p).value := by
  apply highest_picks_max_of_top_tier _ _ 0 0 5 (by decide) (by decide)
  intro w hw
  obtain ⟨p, hp⟩ := List.exists_mem_of_ne_nil _ hw
  rcases mem_tierCands.mp hp with ⟨e, he, hev, _⟩
  have he2 : e ∈ ([("science", (5 : Int)), ("command", 5),
      ("security", 3)] : List (String × Int)) := by
    simpa [scoreEntries] using he
  simp only [List.mem_cons, List.not_mem_nil, or_false] at he2
  rcases he2 with rfl | rfl | rfl <;> simp only at hev <;> omega
